import Mathlib

/-!
Verification development for the aggregation/reporting engine of the
Statistics repository (`src/lib/dataProcessor.ts`, class `DataProcessor`).

The TypeScript engine is shallowly embedded below.  Records are
association lists from column names to cell values.  A cell value is
abstracted by how the JavaScript runtime treats it in this engine:

* `CellValue.date d` — a value that is truthy and that `new Date(v)`
  parses to the valid calendar day `d` (year/month/day); the engine reads
  a date value only through its calendar fields and its ISO `yyyy-mm-dd`
  day key, so one calendar day per value is the faithful abstraction (the
  spec itself fixes "each date's own calendar day" as the normalization);
* `CellValue.str s` — a truthy value that does not parse to a valid date,
  read through `String(v)` as the string `s`;
* `CellValue.empty` — a missing key or a falsy value (`null`, `undefined`,
  `''`, `0`, `NaN`): excluded by every `if (row[k])` guard in the source.

Numbers are `Nat`/`Int`; the floating-point percentage arithmetic of the
comparison KPI is embedded in `ℚ` (the source computes
`(cur - prev)/prev * 100` on totals that are list lengths, so the value
is exactly rational).  JavaScript string primitives used by the source
(`trim`, `split('-')`, number parsing, code-unit comparison) are embedded
as structurally recursive functions on `List Char` so that every
definition evaluates inside the kernel.
-/

namespace Stats

/-- A calendar day as the engine observes a parsed date: `getFullYear`,
`getMonth() + 1`, `getDate`, and the `toISOString` day key. -/
structure Day where
  year : Int
  month : Nat
  day : Nat
deriving DecidableEq, Repr

/-- Abstraction of one cell of an ingested record (see module docstring). -/
inductive CellValue where
  | date (d : Day)
  | str (s : String)
  | empty
deriving DecidableEq, Repr

/-- One row of ingested tabular data (`ExcelData`): a mapping from column
name to cell value, as an association list. -/
abbrev Record := List (String × CellValue)

/-- `row[key]` — a missing key behaves like a falsy value. -/
def getCell (row : Record) (key : String) : CellValue :=
  (row.lookup key).getD .empty

/-- JavaScript truthiness of a cell value. -/
def truthy : CellValue → Bool
  | .empty => false
  | _ => true

/-- `new Date(v)` — `some d` when the value parses to a valid date. -/
def parseDate : CellValue → Option Day
  | .date d => some d
  | _ => none

/-- `ColumnSchema` from `src/types/index.ts`. -/
structure ColumnSchema where
  dateColumn : String
  categoricalColumns : List String
  textualColumn : String
deriving DecidableEq, Repr

/-- One `{ name, count }` entry of a distribution. -/
structure NameCount where
  name : String
  count : Nat
deriving DecidableEq, Repr

/-- The `peak_day` field of `MonthStats`. -/
structure PeakDay where
  date : String
  count : Nat
deriving DecidableEq, Repr

/-- `MonthStats` from `src/types/index.ts`; `distributions` keeps the
key-insertion order (one entry per configured categorical column). -/
structure MonthStats where
  total_count : Nat
  peak_day : PeakDay
  distributions : List (String × List NameCount)
deriving DecidableEq, Repr

/-- The `change_status` tag of the comparison KPI. -/
inductive ChangeStatus where
  | increase
  | decrease
  | neutral
deriving DecidableEq, Repr

/-- One aligned row of a comparison bar chart. -/
structure CompareRow where
  name : String
  current_count : Nat
  prev_count : Nat
deriving DecidableEq, Repr

/-- The `data` payloads of the component shapes this engine emits. -/
inductive ComponentData where
  | kpiData (value : Nat) (unit : String) (subtitle : String)
  | barData (items : List NameCount)
  | compKpiData (current_value previous_value : Nat) (unit : String)
      (change_text : String) (change_status : ChangeStatus)
  | compBarData (items : List CompareRow)
deriving DecidableEq, Repr

/-- `InfographicComponent` (the variants produced by `generateComponents`). -/
structure InfographicComponent where
  component_type : String
  title : String
  source_column : String
  icon : String
  color : String
  data : ComponentData
deriving DecidableEq, Repr

/-! ## JavaScript string primitives, embedded structurally -/

/-- Whitespace for `String.prototype.trim` (the characters relevant here). -/
def isWsp (c : Char) : Bool :=
  c == ' ' || c == '\t' || c == '\n' || c == '\r'

/-- `String(v).trim()` on the character list. -/
def trimChars (cs : List Char) : List Char :=
  ((cs.dropWhile isWsp).reverse.dropWhile isWsp).reverse

/-- `s.trim()`. -/
def jsTrim (s : String) : String :=
  String.mk (trimChars s.data)

/-- `String(v)` for a cell value. A date value renders through its ISO day
key; the engine never groups on stringified dates in the verified claims. -/
def cellToString : CellValue → String
  | .str s => s
  | .date d => toString d.year ++ "-" ++ toString d.month ++ "-" ++ toString d.day
  | .empty => ""

/-- Two-digit zero padding of `toISOString` day/month fields. -/
def pad2 (n : Nat) : String :=
  if n < 10 then "0" ++ toString n else toString n

/-- Four-digit zero padding of the `toISOString` year field. -/
def pad4 (n : Nat) : String :=
  if n < 10 then "000" ++ toString n
  else if n < 100 then "00" ++ toString n
  else if n < 1000 then "0" ++ toString n
  else toString n

/-- `new Date(v).toISOString().split('T')[0]` — the ISO `yyyy-mm-dd` day
key of a date value.  (Negative years would use the JS extended format;
the engine only meets common-era dates.) -/
def isoDayKey (d : Day) : String :=
  (if d.year < 0 then toString d.year else pad4 d.year.toNat)
    ++ "-" ++ pad2 d.month ++ "-" ++ pad2 d.day

/-- Split a character list at `'-'` separators. -/
def splitDashAux : List Char → List Char → List (List Char)
  | [], acc => [acc.reverse]
  | c :: cs, acc =>
    if c == '-' then acc.reverse :: splitDashAux cs []
    else splitDashAux cs (c :: acc)

/-- Parse a decimal digit run; `none` on a non-digit. -/
def charsToNatGo : List Char → Nat → Option Nat
  | [], acc => some acc
  | c :: cs, acc =>
    if c.isDigit then charsToNatGo cs (acc * 10 + (c.toNat - 48)) else none

/-- Parse a nonempty decimal digit run. -/
def charsToNat? : List Char → Option Nat
  | [] => none
  | c :: cs => charsToNatGo (c :: cs) 0

/-- `new Date("yyyy-mm-dd")` read back through its UTC calendar fields, as
the peak-day formatter does with the stored ISO day key. -/
def parseIsoDay (s : String) : Option Day :=
  match splitDashAux s.data [] with
  | [ys, ms, ds] =>
    match charsToNat? ys, charsToNat? ms, charsToNat? ds with
    | some yv, some mv, some dv => some ⟨(yv : Int), mv, dv⟩
    | _, _, _ => none
  | _ => none

/-- Strict lexicographic order on character lists, by code point — the
order behind the JavaScript default string comparison used by `.sort()`
(identical on the basic multilingual plane, which covers this data). -/
def charListLt : List Char → List Char → Bool
  | [], [] => false
  | [], _ :: _ => true
  | _ :: _, [] => false
  | a :: as, b :: bs =>
    if a < b then true
    else if b < a then false
    else charListLt as bs

/-- `a <= b` in the JavaScript string order. -/
def strLeb (a b : String) : Bool :=
  a == b || charListLt a.data b.data

/-! ## Generic list machinery shared by the engine embedding -/

/-- Stable insertion for `sortBy`: `x` goes before the first element `y`
with `le x y`. -/
def insertBy {α : Type} (le : α → α → Bool) (x : α) : List α → List α
  | [] => [x]
  | y :: ys => if le x y then x :: y :: ys else y :: insertBy le x ys

/-- Stable sort; with the comparators below it computes the same list as
the (stable) JavaScript `Array.prototype.sort`. -/
def sortBy {α : Type} (le : α → α → Bool) : List α → List α
  | [] => []
  | x :: xs => insertBy le x (sortBy le xs)

/-- `acc[k] = (acc[k] || 0) + 1` on an association list that keeps the
object key-insertion order. -/
def bump : List (String × Nat) → String → List (String × Nat)
  | [], k => [(k, 1)]
  | (k', c) :: rest, k =>
    if k' = k then (k', c + 1) :: rest else (k', c) :: bump rest k

/-- `Array.from(new Set(l))` — first occurrences, in order. -/
def dedupFirst (l : List String) : List String :=
  l.foldl (fun acc n => if n ∈ acc then acc else acc ++ [n]) []

/-! ## The engine (`DataProcessor.generateComponents` and its locals) -/

/-- The month-filter predicate of `getMonthData`: a truthy date cell whose
parsed year and (1-based) month match the target; an unparseable value
fails the `NaN` comparisons and is excluded. -/
def monthMatch (v : CellValue) (y m : Int) : Bool :=
  truthy v &&
    (match parseDate v with
     | some d => d.year == y && ((d.month : Int) == m)
     | none => false)

/-- `getMonthData` from `dataProcessor.ts`. -/
def getMonthData (data : List Record) (y m : Int) (dateCol : String) : List Record :=
  data.filter (fun row => monthMatch (getCell row dateCol) y m)

/-- The `dailyCounts` reduction of `calculateStatsForMonth`: counts per
ISO day key, in key-insertion order; falsy or unparseable date values are
skipped (the source catches the `toISOString` throw). -/
def dailyCounts (monthData : List Record) (dateCol : String) : List (String × Nat) :=
  monthData.foldl
    (fun acc row =>
      let v := getCell row dateCol
      if truthy v then
        match parseDate v with
        | some d => bump acc (isoDayKey d)
        | none => acc
      else acc)
    []

/-- The peak-day reduction: `keys.reduce((a, b) => cnt a > cnt b ? a : b)`;
`none` on an empty count map.  Folding over the pairs of the association
list is the same computation because its keys are distinct. -/
def peakKey (counts : List (String × Nat)) : Option (String × Nat) :=
  match counts with
  | [] => none
  | p :: rest => some (rest.foldl (fun a b => if a.2 > b.2 then a else b) p)

/-- The `peak_day` field: the stored ISO key is read back through a `Date`
and formatted `m월 d일`; `N/A` when the month has no countable date. -/
def peakDayOf (counts : List (String × Nat)) : PeakDay :=
  match peakKey counts with
  | none => ⟨"N/A", 0⟩
  | some (k, c) =>
    match parseIsoDay k with
    | some d => ⟨toString d.month ++ "월 " ++ toString d.day ++ "일", c⟩
    | none => ⟨"NaN월 NaN일", c⟩

/-- The per-column `counts` reduction: group the records whose value at
`key` is truthy by the trimmed stringified value, in insertion order. -/
def countsFor (monthData : List Record) (key : String) : List (String × Nat) :=
  monthData.foldl
    (fun acc row =>
      if truthy (getCell row key) then
        bump acc (jsTrim (cellToString (getCell row key)))
      else acc)
    []

/-- `Object.entries(counts).sort((a, b) => b.count - a.count).slice(0, 5)`
mapped to `{ name, count }` entries. -/
def topCounts (monthData : List Record) (key : String) : List NameCount :=
  ((sortBy (fun a b => decide (b.2 ≤ a.2)) (countsFor monthData key)).take 5).map
    (fun p => ⟨p.1, p.2⟩)

/-- One distribution of `calculateStatsForMonth`: the source keeps the
distribution empty when the first record of the window does not own the
column key (`!monthData[0].hasOwnProperty(key)`). -/
def distFor (monthData : List Record) (key : String) : List NameCount :=
  match monthData.head? with
  | none => []
  | some r0 => if (r0.lookup key).isSome then topCounts monthData key else []

/-- The `MonthStats` value built for a nonempty month window. -/
def statsOf (monthData : List Record) (dateCol : String) (catCols : List String) : MonthStats :=
  { total_count := monthData.length
    peak_day := peakDayOf (dailyCounts monthData dateCol)
    distributions := catCols.map (fun key => (key, distFor monthData key)) }

/-- `calculateStatsForMonth` from `dataProcessor.ts`. -/
def calculateStatsForMonth (monthData : List Record) (dateCol : String)
    (catCols : List String) : Option MonthStats :=
  if monthData.isEmpty then none else some (statsOf monthData dateCol catCols)

/-- `((currentTotal - previousTotal) / previousTotal) * 100` in exact
rational arithmetic. -/
def changePercent (currentTotal previousTotal : Nat) : ℚ :=
  ((currentTotal : ℚ) - (previousTotal : ℚ)) / (previousTotal : ℚ) * 100

/-- `Math.round` (round half toward positive infinity). -/
def jsRound (q : ℚ) : Int := ⌊q + 1 / 2⌋

/-- The `change_text` / `change_status` block of the comparison branch:
deadband of `±0.1` around zero change, distinguished "신규 발생" label when
the previous total is zero and the current one is positive. -/
def changeInfo (currentTotal previousTotal : Nat) : String × ChangeStatus :=
  if 0 < previousTotal then
    if 1 / 10 < changePercent currentTotal previousTotal then
      (toString (jsRound (changePercent currentTotal previousTotal)) ++ "% 증가",
        ChangeStatus.increase)
    else if changePercent currentTotal previousTotal < -(1 / 10) then
      (toString (jsRound |changePercent currentTotal previousTotal|) ++ "% 감소",
        ChangeStatus.decrease)
    else ("변동 없음", ChangeStatus.neutral)
  else if 0 < currentTotal then ("신규 발생", ChangeStatus.increase)
  else ("변동 없음", ChangeStatus.neutral)

/-- `currentMap.get(name) || 0`: the map built from a list of entries
keeps the last entry per name. -/
def countOf (l : List NameCount) (n : String) : Nat :=
  ((l.reverse.find? (fun i => i.name == n)).map (fun i => i.count)).getD 0

/-- The aligned comparison rows for one categorical column: union of the
names of both top-5 lists (set-insertion order), sorted by the default
string comparator, each paired with the per-month counts defaulting to 0. -/
def comparisonRows (currentList prevList : List NameCount) : List CompareRow :=
  (sortBy strLeb
      (dedupFirst
        (currentList.map (fun i => i.name) ++ prevList.map (fun i => i.name)))).map
    (fun n => ⟨n, countOf currentList n, countOf prevList n⟩)

/-- The final output filter: drop a component whose data payload is an
empty array (`c.data && (!Array.isArray(c.data) || c.data.length > 0)`). -/
def keepComponent (c : InfographicComponent) : Bool :=
  match c.data with
  | .barData items => !items.isEmpty
  | .compBarData items => !items.isEmpty
  | _ => true

/-- The components pushed by the `reportType === 'single'` branch. -/
def singleComponents (schema : ColumnSchema) (currentStats : MonthStats)
    (month : Int) : List InfographicComponent :=
  ⟨"kpi", "총 문의 수", "total_count", "hash", "indigo",
      ComponentData.kpiData currentStats.total_count "건" (toString month ++ "월")⟩
    :: ((if schema.dateColumn = "" then []
         else
           [⟨"kpi", "피크 일자", "peak_day", "trending-up", "orange",
              ComponentData.kpiData currentStats.peak_day.count "건"
                currentStats.peak_day.date⟩])
        ++ schema.categoricalColumns.map (fun col =>
            ⟨"bar_chart",
              (if col = "ai_category" then "AI-분석 문의 유형" else col ++ "별 분포"),
              col, "pie-chart", "sky",
              ComponentData.barData
                ((currentStats.distributions.lookup col).getD [])⟩))

/-- The components pushed by the comparison branch when the previous
month has stats. -/
def comparisonComponents (schema : ColumnSchema)
    (currentStats previousStats : MonthStats) : List InfographicComponent :=
  ⟨"comparison_kpi", "총 문의 수 비교", "total_count", "hash", "indigo",
      ComponentData.compKpiData currentStats.total_count previousStats.total_count
        "건" (changeInfo currentStats.total_count previousStats.total_count).1
        (changeInfo currentStats.total_count previousStats.total_count).2⟩
    :: schema.categoricalColumns.map (fun col =>
        ⟨"comparison_bar_chart",
          (if col = "ai_category" then "AI-분석 문의 유형 비교" else col ++ "별 비교"),
          col, "pie-chart", "sky",
          ComponentData.compBarData
            (comparisonRows
              ((currentStats.distributions.lookup col).getD [])
              ((previousStats.distributions.lookup col).getD []))⟩)

/-- `month === 1 ? 12 : month - 1`. -/
def prevMonthOf (m : Int) : Int := if m = 1 then 12 else m - 1

/-- `month === 1 ? year - 1 : year`. -/
def prevYearOf (y m : Int) : Int := if m = 1 then y - 1 else y

/-- `DataProcessor.generateComponents`.  When the comparison branch finds
no previous-month stats, the source returns
`this.generateComponents(schema, fullData, year, month, 'single')`; that
call recomputes the same deterministic `currentStats` and returns exactly
the filtered single-mode components, which is inlined here. -/
def generateComponents (schema : ColumnSchema) (fullData : List Record)
    (year month : Int) (reportType : String) : List InfographicComponent :=
  match calculateStatsForMonth (getMonthData fullData year month schema.dateColumn)
      schema.dateColumn schema.categoricalColumns with
  | none => []
  | some currentStats =>
    if reportType = "single" then
      (singleComponents schema currentStats month).filter keepComponent
    else
      match calculateStatsForMonth
          (getMonthData fullData (prevYearOf year month) (prevMonthOf month)
            schema.dateColumn)
          schema.dateColumn schema.categoricalColumns with
      | some previousStats =>
        (comparisonComponents schema currentStats previousStats).filter keepComponent
      | none => (singleComponents schema currentStats month).filter keepComponent

/-- The worked record set of the spec scenarios (§8). -/
def scenarioRecords : List Record :=
  [[("date", CellValue.date ⟨2025, 8, 1⟩), ("cat", CellValue.str "A")],
   [("date", CellValue.date ⟨2025, 8, 1⟩), ("cat", CellValue.str "A")],
   [("date", CellValue.date ⟨2025, 8, 2⟩), ("cat", CellValue.str "B")]]

/-- 120 August 2025 records followed by 100 July 2025 records (the
`current=120, previous=100` scenario of the spec). -/
def grownData : List Record :=
  List.replicate 120 [("date", CellValue.date ⟨2025, 8, 5⟩)]
    ++ List.replicate 100 [("date", CellValue.date ⟨2025, 7, 5⟩)]

/-- A window whose first record lacks the `cat` column while a later
record carries it. -/
def hetWindow : List Record :=
  [[("date", CellValue.date ⟨2025, 8, 1⟩)],
   [("date", CellValue.date ⟨2025, 8, 2⟩), ("cat", CellValue.str "A")]]

/-- Data with records only in August 2025 (its July window is empty). -/
def augOnlyData : List Record :=
  [[("date", CellValue.date ⟨2025, 8, 1⟩), ("cat", CellValue.str "A")]]

/-! ## Lemmas about the sorting and grouping machinery -/

theorem insertBy_perm {α : Type} (le : α → α → Bool) (x : α) (l : List α) :
    List.Perm (insertBy le x l) (x :: l) := by
  induction l with
  | nil => exact List.Perm.refl _
  | cons y ys ih =>
    by_cases h : le x y = true
    · simp only [insertBy, if_pos h]
      exact List.Perm.refl _
    · simp only [insertBy, if_neg h]
      exact (ih.cons y).trans (List.Perm.swap x y ys)

theorem mem_insertBy {α : Type} (le : α → α → Bool) (x a : α) (l : List α) :
    a ∈ insertBy le x l ↔ a = x ∨ a ∈ l := by
  rw [(insertBy_perm le x l).mem_iff, List.mem_cons]

theorem sortBy_perm {α : Type} (le : α → α → Bool) (l : List α) :
    List.Perm (sortBy le l) l := by
  induction l with
  | nil => exact List.Perm.refl _
  | cons x xs ih => exact (insertBy_perm le x (sortBy le xs)).trans (ih.cons x)

theorem mem_sortBy {α : Type} (le : α → α → Bool) (a : α) (l : List α) :
    a ∈ sortBy le l ↔ a ∈ l :=
  (sortBy_perm le l).mem_iff

theorem pairwise_insertBy {α : Type} {le : α → α → Bool}
    (htot : ∀ a b, le a b = true ∨ le b a = true)
    (htr : ∀ a b c, le a b = true → le b c = true → le a c = true)
    (x : α) {l : List α} (hl : l.Pairwise (fun a b => le a b = true)) :
    (insertBy le x l).Pairwise (fun a b => le a b = true) := by
  induction l with
  | nil => simp [insertBy]
  | cons y ys ih =>
    rcases List.pairwise_cons.mp hl with ⟨hy, hys⟩
    by_cases h : le x y = true
    · simp only [insertBy, if_pos h]
      refine List.pairwise_cons.mpr ⟨?_, hl⟩
      intro z hz
      rcases List.mem_cons.mp hz with rfl | hz'
      · exact h
      · exact htr x y z h (hy z hz')
    · simp only [insertBy, if_neg h]
      refine List.pairwise_cons.mpr ⟨?_, ih hys⟩
      intro z hz
      rcases (mem_insertBy le x z ys).mp hz with hzx | hz'
      · rw [hzx]
        rcases htot x y with h' | h'
        · exact absurd h' h
        · exact h'
      · exact hy z hz'

theorem pairwise_sortBy {α : Type} {le : α → α → Bool}
    (htot : ∀ a b, le a b = true ∨ le b a = true)
    (htr : ∀ a b c, le a b = true → le b c = true → le a c = true)
    (l : List α) :
    (sortBy le l).Pairwise (fun a b => le a b = true) := by
  induction l with
  | nil => simp [sortBy]
  | cons x xs ih => exact pairwise_insertBy htot htr x ih

theorem mem_dedupFirst_aux (l acc : List String) (a : String) :
    a ∈ l.foldl (fun acc n => if n ∈ acc then acc else acc ++ [n]) acc ↔
      a ∈ acc ∨ a ∈ l := by
  induction l generalizing acc with
  | nil => simp
  | cons x xs ih =>
    rw [List.foldl_cons, ih]
    by_cases hx : x ∈ acc
    · simp only [if_pos hx, List.mem_cons]
      constructor
      · rintro (h | h)
        · exact Or.inl h
        · exact Or.inr (Or.inr h)
      · rintro (h | rfl | h)
        · exact Or.inl h
        · exact Or.inl hx
        · exact Or.inr h
    · simp only [if_neg hx, List.mem_append, List.mem_singleton, List.mem_cons]
      tauto

theorem mem_dedupFirst (l : List String) (a : String) :
    a ∈ dedupFirst l ↔ a ∈ l := by
  rw [dedupFirst, mem_dedupFirst_aux]
  simp

theorem nodup_dedupFirst_aux (l : List String) : ∀ acc : List String, acc.Nodup →
    (l.foldl (fun acc n => if n ∈ acc then acc else acc ++ [n]) acc).Nodup := by
  induction l with
  | nil => intro acc h; simpa using h
  | cons x xs ih =>
    intro acc h
    rw [List.foldl_cons]
    by_cases hx : x ∈ acc
    · rw [if_pos hx]; exact ih acc h
    · rw [if_neg hx]
      refine ih _ (List.Nodup.append h (List.nodup_singleton x) ?_)
      intro a ha hax
      rw [List.mem_singleton] at hax
      subst hax
      exact hx ha

theorem nodup_dedupFirst (l : List String) : (dedupFirst l).Nodup :=
  nodup_dedupFirst_aux l [] List.nodup_nil

theorem mem_bump (k : String) : ∀ (acc : List (String × Nat)) (p : String × Nat),
    p ∈ bump acc k → p.1 = k ∨ p ∈ acc := by
  intro acc
  induction acc with
  | nil =>
    intro p hp
    simp only [bump, List.mem_singleton] at hp
    left
    rw [hp]
  | cons q rest ih =>
    obtain ⟨k', c⟩ := q
    intro p hp
    by_cases h : k' = k
    · simp only [bump, if_pos h] at hp
      rcases List.mem_cons.mp hp with rfl | hp'
      · left; exact h
      · right; exact List.mem_cons_of_mem _ hp'
    · simp only [bump, if_neg h] at hp
      rcases List.mem_cons.mp hp with rfl | hp'
      · right; exact List.mem_cons_self _ _
      · rcases ih p hp' with h' | h'
        · left; exact h'
        · right; exact List.mem_cons_of_mem _ h'

theorem countsFor_mem_aux (key : String) :
    ∀ (l : List Record) (acc : List (String × Nat)) (p : String × Nat),
      p ∈ l.foldl
        (fun acc row =>
          if truthy (getCell row key) then
            bump acc (jsTrim (cellToString (getCell row key)))
          else acc) acc →
      p ∈ acc ∨
        ∃ r ∈ l, truthy (getCell r key) = true ∧
          jsTrim (cellToString (getCell r key)) = p.1 := by
  intro l
  induction l with
  | nil =>
    intro acc p hp
    left
    simpa using hp
  | cons r rs ih =>
    intro acc p hp
    rw [List.foldl_cons] at hp
    rcases ih _ p hp with h | ⟨r', hr', h1, h2⟩
    · by_cases ht : truthy (getCell r key) = true
      · rw [if_pos ht] at h
        rcases mem_bump _ _ p h with h' | h'
        · right
          exact ⟨r, List.mem_cons_self _ _, ht, h'.symm⟩
        · left; exact h'
      · rw [if_neg ht] at h
        left; exact h
    · right
      exact ⟨r', List.mem_cons_of_mem _ hr', h1, h2⟩

theorem mem_countsFor {monthData : List Record} {key : String} {p : String × Nat}
    (hp : p ∈ countsFor monthData key) :
    ∃ r ∈ monthData, truthy (getCell r key) = true ∧
      jsTrim (cellToString (getCell r key)) = p.1 := by
  rw [countsFor] at hp
  rcases countsFor_mem_aux key monthData [] p hp with h | h
  · simp at h
  · exact h

theorem peakFold_spec : ∀ (rest : List (String × Nat)) (p : String × Nat),
    (rest.foldl (fun a b => if a.2 > b.2 then a else b) p) ∈ p :: rest ∧
    p.2 ≤ (rest.foldl (fun a b => if a.2 > b.2 then a else b) p).2 ∧
    ∀ q ∈ rest, q.2 ≤ (rest.foldl (fun a b => if a.2 > b.2 then a else b) p).2 := by
  intro rest
  induction rest with
  | nil =>
    intro p
    refine ⟨List.mem_cons_self _ _, le_refl _, ?_⟩
    intro q hq
    simp at hq
  | cons b bs ih =>
    intro p
    rw [List.foldl_cons]
    have step : (if p.2 > b.2 then p else b) = p ∨ (if p.2 > b.2 then p else b) = b := by
      by_cases h : p.2 > b.2 <;> simp [h]
    have hple : p.2 ≤ (if p.2 > b.2 then p else b).2 := by
      by_cases h : p.2 > b.2
      · simp [h]
      · simp [h]
        omega
    have hble : b.2 ≤ (if p.2 > b.2 then p else b).2 := by
      by_cases h : p.2 > b.2
      · simp [h]
        omega
      · simp [h]
    obtain ⟨hmem, hle, hall⟩ := ih (if p.2 > b.2 then p else b)
    refine ⟨?_, le_trans hple hle, ?_⟩
    · rcases List.mem_cons.mp hmem with he | hmem'
      · rw [he]
        rcases step with h | h
        · rw [h]; exact List.mem_cons_self _ _
        · rw [h]; exact List.mem_cons_of_mem _ (List.mem_cons_self _ _)
      · exact List.mem_cons_of_mem _ (List.mem_cons_of_mem _ hmem')
    · intro q hq
      rcases List.mem_cons.mp hq with rfl | hq'
      · exact le_trans hble hle
      · exact hall q hq'

/-! ## Lemmas about the string order -/

theorem charListLt_total (as : List Char) : ∀ bs : List Char,
    charListLt as bs = true ∨ charListLt bs as = true ∨ as = bs := by
  induction as with
  | nil =>
    intro bs
    cases bs with
    | nil => right; right; rfl
    | cons b bs => left; rfl
  | cons a as ih =>
    intro bs
    cases bs with
    | nil => right; left; rfl
    | cons b bs =>
      rcases lt_trichotomy a b with hab | heq | hba
      · left; simp [charListLt, hab]
      · subst heq
        rcases ih bs with h | h | h
        · left; simp [charListLt, lt_irrefl, h]
        · right; left; simp [charListLt, lt_irrefl, h]
        · right; right; rw [h]
      · right; left; simp [charListLt, hba]

theorem charListLt_trans : ∀ {as bs cs : List Char},
    charListLt as bs = true → charListLt bs cs = true → charListLt as cs = true := by
  intro as
  induction as with
  | nil =>
    intro bs cs h1 h2
    cases bs with
    | nil => simp [charListLt] at h1
    | cons b bs =>
      cases cs with
      | nil => simp [charListLt] at h2
      | cons c cs => rfl
  | cons a as ih =>
    intro bs cs h1 h2
    cases bs with
    | nil => simp [charListLt] at h1
    | cons b bs =>
      cases cs with
      | nil => simp [charListLt] at h2
      | cons c cs =>
        by_cases hab : a < b
        · by_cases hbc : b < c
          · simp [charListLt, lt_trans hab hbc]
          · by_cases hcb : c < b
            · simp [charListLt, hbc, hcb] at h2
            · have hbc' : b = c := le_antisymm (not_lt.mp hcb) (not_lt.mp hbc)
              subst hbc'
              simp [charListLt, hab]
        · by_cases hba : b < a
          · simp [charListLt, hab, hba] at h1
          · have hab' : a = b := le_antisymm (not_lt.mp hba) (not_lt.mp hab)
            subst hab'
            have h1' : charListLt as bs = true := by
              simpa [charListLt, lt_irrefl] using h1
            by_cases hac : a < c
            · simp [charListLt, hac]
            · by_cases hca : c < a
              · simp [charListLt, hac, hca] at h2
              · have hac' : a = c := le_antisymm (not_lt.mp hca) (not_lt.mp hac)
                subst hac'
                have h2' : charListLt bs cs = true := by
                  simpa [charListLt, lt_irrefl] using h2
                simp only [charListLt, lt_irrefl, if_neg (lt_irrefl a)]
                exact ih h1' h2'

theorem charListLt_lex : ∀ {as bs : List Char},
    charListLt as bs = true → List.Lex (· < ·) as bs := by
  intro as
  induction as with
  | nil =>
    intro bs h
    cases bs with
    | nil => simp [charListLt] at h
    | cons b bs => exact List.Lex.nil
  | cons a as ih =>
    intro bs h
    cases bs with
    | nil => simp [charListLt] at h
    | cons b bs =>
      by_cases hab : a < b
      · exact List.Lex.rel hab
      · by_cases hba : b < a
        · simp [charListLt, hab, hba] at h
        · have heq : a = b := le_antisymm (not_lt.mp hba) (not_lt.mp hab)
          subst heq
          have h' : charListLt as bs = true := by
            simpa [charListLt, lt_irrefl] using h
          exact List.Lex.cons (ih h')

theorem strLeb_total (a b : String) : strLeb a b = true ∨ strLeb b a = true := by
  rcases charListLt_total a.data b.data with h | h | h
  · left; simp [strLeb, h]
  · right; simp [strLeb, h]
  · left
    have hab : a = b := by
      cases a
      cases b
      simp only at h
      rw [h]
    simp [strLeb, hab]

theorem strLeb_trans (a b c : String) (h1 : strLeb a b = true)
    (h2 : strLeb b c = true) : strLeb a c = true := by
  unfold strLeb at h1 h2 ⊢
  rcases (Bool.or_eq_true _ _).mp h1 with hab | hab
  · have he : a = b := eq_of_beq hab
    subst he
    exact h2
  · rcases (Bool.or_eq_true _ _).mp h2 with hbc | hbc
    · have he : b = c := eq_of_beq hbc
      subst he
      simp [hab]
    · simp [charListLt_trans hab hbc]

theorem strLeb_lt_or_eq {a b : String} (h : strLeb a b = true) : a < b ∨ a = b := by
  unfold strLeb at h
  rcases (Bool.or_eq_true _ _).mp h with h' | h'
  · right; exact eq_of_beq h'
  · left
    rw [String.lt_iff_toList_lt]
    exact charListLt_lex h'

/-! ## Lemmas about the stats computation -/

theorem lookup_map_pairs {β : Type} (f : String → β) :
    ∀ (cats : List String) (key : String), key ∈ cats →
      (cats.map (fun k => (k, f k))).lookup key = some (f key) := by
  intro cats
  induction cats with
  | nil =>
    intro key h
    simp at h
  | cons k ks ih =>
    intro key h
    by_cases hk : key = k
    · subst hk
      simp [List.lookup]
    · have h' : key ∈ ks := by
        rcases List.mem_cons.mp h with h'' | h''
        · exact absurd h'' hk
        · exact h''
      have hb : (key == k) = false := beq_eq_false_iff_ne.mpr hk
      rw [List.map_cons, List.lookup_cons]
      simp only [hb]
      exact ih key h'

theorem calcStats_of_ne_nil {l : List Record} (dc : String) (cc : List String)
    (h : l ≠ []) :
    calculateStatsForMonth l dc cc = some (statsOf l dc cc) := by
  cases l with
  | nil => exact absurd rfl h
  | cons a as => rfl

theorem calcStats_none_iff (l : List Record) (dc : String) (cc : List String) :
    calculateStatsForMonth l dc cc = none ↔ l = [] := by
  cases l with
  | nil => simp [calculateStatsForMonth]
  | cons a as => simp [calculateStatsForMonth]

theorem calcStats_some {l : List Record} {dc : String} {cc : List String}
    {s : MonthStats} (h : calculateStatsForMonth l dc cc = some s) :
    s = statsOf l dc cc ∧ l ≠ [] := by
  cases l with
  | nil => simp [calculateStatsForMonth] at h
  | cons a as =>
    rw [calcStats_of_ne_nil dc cc (by simp)] at h
    exact ⟨(Option.some_inj.mp h).symm, by simp⟩

theorem distributions_lookup {monthData : List Record} {dc : String}
    {catCols : List String} {key : String} (hk : key ∈ catCols) :
    (statsOf monthData dc catCols).distributions.lookup key =
      some (distFor monthData key) :=
  lookup_map_pairs (fun k => distFor monthData k) catCols key hk

theorem topCounts_spec (monthData : List Record) (key : String) :
    (topCounts monthData key).length ≤ 5 ∧
    (topCounts monthData key).Pairwise (fun a b => b.count ≤ a.count) := by
  constructor
  · rw [topCounts, List.length_map, List.length_take]
    exact min_le_left _ _
  · rw [topCounts, List.pairwise_map]
    have htot : ∀ a b : String × Nat,
        decide (b.2 ≤ a.2) = true ∨ decide (a.2 ≤ b.2) = true := by
      intro a b
      rcases Nat.le_total b.2 a.2 with h | h
      · left; exact decide_eq_true h
      · right; exact decide_eq_true h
    have htr : ∀ a b c : String × Nat,
        decide (b.2 ≤ a.2) = true → decide (c.2 ≤ b.2) = true →
          decide (c.2 ≤ a.2) = true := by
      intro a b c h1 h2
      exact decide_eq_true (le_trans (of_decide_eq_true h2) (of_decide_eq_true h1))
    have hp := pairwise_sortBy htot htr (countsFor monthData key)
    have hp' := List.Pairwise.sublist (List.take_sublist 5 _) hp
    exact hp'.imp (fun h => of_decide_eq_true h)

theorem distFor_spec (monthData : List Record) (key : String) :
    (distFor monthData key).length ≤ 5 ∧
    (distFor monthData key).Pairwise (fun a b => b.count ≤ a.count) := by
  cases h : monthData.head? with
  | none => simp [distFor, h]
  | some r0 =>
    by_cases hk : (r0.lookup key).isSome
    · simp only [distFor, h, if_pos hk]
      exact topCounts_spec monthData key
    · simp [distFor, h, hk]

theorem sortBy_strings_sorted (l : List String) :
    (sortBy strLeb l).Pairwise (fun a b => a < b ∨ a = b) := by
  have hp := pairwise_sortBy strLeb_total strLeb_trans l
  exact hp.imp (fun h => strLeb_lt_or_eq h)

theorem generateComponents_comparison_eq {schema : ColumnSchema}
    {fullData : List Record} {y m : Int}
    (h1 : getMonthData fullData y m schema.dateColumn ≠ [])
    (h2 : getMonthData fullData (prevYearOf y m) (prevMonthOf m) schema.dateColumn ≠ []) :
    generateComponents schema fullData y m "comparison" =
      (comparisonComponents schema
        (statsOf (getMonthData fullData y m schema.dateColumn) schema.dateColumn
          schema.categoricalColumns)
        (statsOf (getMonthData fullData (prevYearOf y m) (prevMonthOf m) schema.dateColumn)
          schema.dateColumn schema.categoricalColumns)).filter keepComponent := by
  unfold generateComponents
  cases hc : getMonthData fullData y m schema.dateColumn with
  | nil => exact absurd hc h1
  | cons r rs =>
    cases hp : getMonthData fullData (prevYearOf y m) (prevMonthOf m) schema.dateColumn with
    | nil => exact absurd hp h2
    | cons q qs => rfl

theorem generateComponents_single_eq {schema : ColumnSchema}
    {fullData : List Record} {y m : Int}
    (h1 : getMonthData fullData y m schema.dateColumn ≠ []) :
    generateComponents schema fullData y m "single" =
      (singleComponents schema
        (statsOf (getMonthData fullData y m schema.dateColumn) schema.dateColumn
          schema.categoricalColumns) m).filter keepComponent := by
  unfold generateComponents
  cases hc : getMonthData fullData y m schema.dateColumn with
  | nil => exact absurd hc h1
  | cons r rs => rfl

/-! ## The claims -/

/-- C3: the month filter includes a record iff its date-column value is a
truthy cell that parses to a valid date whose calendar year equals the
target year and whose 1-based calendar month equals the target month;
records with a missing, falsy or unparseable date value are silently
excluded, and the result preserves the input order (it is a sublist of
the input). -/
theorem c3_month_filter (data : List Record) (y m : Int) (col : String) :
    (getMonthData data y m col).Sublist data ∧
    ∀ r : Record, r ∈ getMonthData data y m col ↔
      (r ∈ data ∧ ∃ d : Day, getCell r col = CellValue.date d ∧
        d.year = y ∧ (d.month : Int) = m) := by
  constructor
  · exact List.filter_sublist _
  · intro r
    rw [getMonthData, List.mem_filter]
    constructor
    · rintro ⟨hr, hm⟩
      refine ⟨hr, ?_⟩
      cases hv : getCell r col with
      | date d =>
        rw [hv] at hm
        simp only [monthMatch, truthy, parseDate, Bool.true_and, Bool.and_eq_true,
          beq_iff_eq] at hm
        exact ⟨d, rfl, hm.1, hm.2⟩
      | str s =>
        rw [hv] at hm
        simp [monthMatch, parseDate] at hm
      | empty =>
        rw [hv] at hm
        simp [monthMatch, truthy] at hm
    · rintro ⟨hr, d, hd, hy, hm⟩
      refine ⟨hr, ?_⟩
      rw [hd]
      simp [monthMatch, truthy, parseDate, hy, hm]

/-- C8: the monthly statistics computation returns `none` exactly when
the supplied window is empty; on every nonempty window it returns stats
whose `total_count` is the number of records of the window, with no
further exclusion. -/
theorem c8_null_iff_empty (monthData : List Record) (dateCol : String)
    (catCols : List String) :
    (calculateStatsForMonth monthData dateCol catCols = none ↔ monthData = []) ∧
    ∀ s : MonthStats, calculateStatsForMonth monthData dateCol catCols = some s →
      s.total_count = monthData.length := by
  refine ⟨calcStats_none_iff monthData dateCol catCols, ?_⟩
  intro s hs
  rw [(calcStats_some hs).1]
  rfl

/-- C8 witness: the empty window yields `none`; the three-record August
window of the scenario records yields total count 3. -/
theorem c8_witness :
    calculateStatsForMonth ([] : List Record) "date" ["cat"] = none ∧
    (⟨3, ⟨"8월 1일", 2⟩, [("cat", [⟨"A", 2⟩, ⟨"B", 1⟩])]⟩ : MonthStats).total_count =
      (getMonthData scenarioRecords 2025 8 "date").length := by
  constructor
  · exact (c8_null_iff_empty [] "date" ["cat"]).1.mpr rfl
  · exact (c8_null_iff_empty (getMonthData scenarioRecords 2025 8 "date") "date"
      ["cat"]).2 _ (by decide)

/-- C10: any report type other than the exact string `single` — including
`cumulative` and unrecognized values — takes the comparison path: the
output is identical to the `comparison` output on the same arguments
(there is no dedicated cumulative branch in this processor). -/
theorem c10_default_comparison (schema : ColumnSchema) (fullData : List Record)
    (y m : Int) (rt : String) (h : rt ≠ "single") :
    generateComponents schema fullData y m rt =
      generateComponents schema fullData y m "comparison" := by
  unfold generateComponents
  split
  · rfl
  · rw [if_neg h, if_neg (by decide : ¬(("comparison" : String) = "single"))]

/-- C10 witness: the `cumulative` report type takes the comparison path
on the scenario data. -/
theorem c10_witness :
    ("cumulative" : String) ≠ "single" ∧
    generateComponents ⟨"date", ["cat"], "text"⟩ scenarioRecords 2025 8 "cumulative" =
      generateComponents ⟨"date", ["cat"], "text"⟩ scenarioRecords 2025 8 "comparison" :=
  ⟨by decide, c10_default_comparison _ _ _ _ _ (by decide)⟩

/-- C6: when the previous month window is empty — so its stats are
absent — comparison mode produces output identical to single mode on the
same arguments: the report silently downgrades instead of failing. -/
theorem c6_fallback (schema : ColumnSchema) (fullData : List Record) (y m : Int)
    (hprev : getMonthData fullData (prevYearOf y m) (prevMonthOf m)
      schema.dateColumn = []) :
    generateComponents schema fullData y m "comparison" =
      generateComponents schema fullData y m "single" := by
  unfold generateComponents
  rw [hprev]
  split
  · rfl
  · rw [if_neg (by decide : ¬(("comparison" : String) = "single")), if_pos rfl]
    rfl

/-- C6 witness: with records only in August 2025 the July 2025 window is
empty and the comparison output equals the single output. -/
theorem c6_witness :
    getMonthData augOnlyData (prevYearOf 2025 8) (prevMonthOf 8) "date" = [] ∧
    generateComponents ⟨"date", ["cat"], "text"⟩ augOnlyData 2025 8 "comparison" =
      generateComponents ⟨"date", ["cat"], "text"⟩ augOnlyData 2025 8 "single" :=
  ⟨by decide, c6_fallback _ _ _ _ (by decide)⟩

/-- C5: the change classification of the comparison branch: a zero
previous total with a positive current total is classified `increase`
with the distinguished "신규 발생" (newly appeared) label — no percentage
and no division is computed — and two zero totals give `neutral` with the
"변동 없음" (no change) label; the comparison KPI emitted by the
comparison branch carries exactly this classification of the two totals. -/
theorem c5_zero_previous (currentTotal : Nat) :
    (0 < currentTotal →
      changeInfo currentTotal 0 = ("신규 발생", ChangeStatus.increase)) ∧
    changeInfo 0 0 = ("변동 없음", ChangeStatus.neutral) ∧
    ∀ (schema : ColumnSchema) (cs ps : MonthStats),
      (comparisonComponents schema cs ps).head? =
        some ⟨"comparison_kpi", "총 문의 수 비교", "total_count", "hash", "indigo",
          ComponentData.compKpiData cs.total_count ps.total_count "건"
            (changeInfo cs.total_count ps.total_count).1
            (changeInfo cs.total_count ps.total_count).2⟩ := by
  refine ⟨?_, by decide, ?_⟩
  · intro h
    unfold changeInfo
    rw [if_neg (by decide : ¬((0 : Nat) < 0)), if_pos h]
  · intro schema cs ps
    rfl

/-- C5 witness: current total 5 against previous total 0 classifies as
`increase` with the "신규 발생" label; two zero totals are neutral. -/
theorem c5_witness :
    changeInfo 5 0 = ("신규 발생", ChangeStatus.increase) ∧
    changeInfo 0 0 = ("변동 없음", ChangeStatus.neutral) :=
  ⟨(c5_zero_previous 5).1 (by decide), (c5_zero_previous 0).2.1⟩

/-- C9: every distribution list in a computed `MonthStats` is sorted by
count in descending order and has length at most 5. -/
theorem c9_distributions_sorted (monthData : List Record) (dateCol : String)
    (catCols : List String) (s : MonthStats) (key : String) (l : List NameCount)
    (hs : calculateStatsForMonth monthData dateCol catCols = some s)
    (hmem : (key, l) ∈ s.distributions) :
    l.length ≤ 5 ∧ l.Pairwise (fun a b => b.count ≤ a.count) := by
  obtain ⟨hsEq, -⟩ := calcStats_some hs
  subst hsEq
  rcases List.mem_map.mp hmem with ⟨k, hk, hkeq⟩
  have hk2 : distFor monthData k = l := congrArg Prod.snd hkeq
  rw [← hk2]
  exact distFor_spec monthData k

/-- C9 witness: the `cat` distribution of the scenario window has length
at most 5 and is sorted by count descending. -/
theorem c9_witness :
    ([⟨"A", 2⟩, ⟨"B", 1⟩] : List NameCount).length ≤ 5 ∧
    ([⟨"A", 2⟩, ⟨"B", 1⟩] : List NameCount).Pairwise (fun a b => b.count ≤ a.count) :=
  c9_distributions_sorted (getMonthData scenarioRecords 2025 8 "date") "date" ["cat"]
    ⟨3, ⟨"8월 1일", 2⟩, [("cat", [⟨"A", 2⟩, ⟨"B", 1⟩])]⟩ "cat" [⟨"A", 2⟩, ⟨"B", 1⟩]
    (by decide) (by decide)

/-- C4: whenever the peak reduction selects a day key, that key belongs
to the per-ISO-day count map of the window and its count dominates every
daily count; on the scenario records with target (2025, 8), the single
report stats have total 3 and peak count 2, the selected ISO day key
being `2025-08-01` (displayed as `8월 1일`). -/
theorem c4_peak_day :
    (∀ (monthData : List Record) (dateCol : String) (pk : String × Nat),
      peakKey (dailyCounts monthData dateCol) = some pk →
      pk ∈ dailyCounts monthData dateCol ∧
        ∀ q ∈ dailyCounts monthData dateCol, q.2 ≤ pk.2) ∧
    (calculateStatsForMonth (getMonthData scenarioRecords 2025 8 "date") "date"
        ["cat"]).map (fun s => (s.total_count, s.peak_day)) =
      some (3, ⟨"8월 1일", 2⟩) ∧
    peakKey (dailyCounts (getMonthData scenarioRecords 2025 8 "date") "date") =
      some ("2025-08-01", 2) := by
  refine ⟨?_, by decide, by decide⟩
  intro monthData dateCol pk
  cases hdc : dailyCounts monthData dateCol with
  | nil =>
    intro hpk
    simp [peakKey] at hpk
  | cons p rest =>
    intro hpk
    simp only [peakKey, Option.some_inj] at hpk
    obtain ⟨hmem, hple, hall⟩ := peakFold_spec rest p
    rw [hpk] at hmem hple hall
    refine ⟨hmem, ?_⟩
    intro q hq
    rcases List.mem_cons.mp hq with rfl | hq'
    · exact hple
    · exact hall q hq'

/-- C4 witness: applying the maximality part at the scenario window shows
the selected pair (2025-08-01, 2) is one of the daily counts. -/
theorem c4_witness :
    ("2025-08-01", 2) ∈ dailyCounts (getMonthData scenarioRecords 2025 8 "date") "date" :=
  (c4_peak_day.1 (getMonthData scenarioRecords 2025 8 "date") "date" ("2025-08-01", 2)
    (by decide)).1

/-- C2 counterexample: in the window `hetWindow` — whose first record
lacks the `cat` column while its second record carries `cat = "A"` — the
code computes an empty `cat` distribution, although grouping all records
of the window (what the claim prescribes, performed by the engine's own
grouping routine `topCounts`) yields the nonempty list `[(A, 1)]`. -/
theorem c2_counterexample :
    (calculateStatsForMonth hetWindow "date" ["cat"]).map
        (fun s => s.distributions.lookup "cat") = some (some []) ∧
    topCounts hetWindow "cat" = [⟨"A", 1⟩] :=
  ⟨by decide, by decide⟩

/-- C2 (amended): for every nonempty window and configured column, the
distribution equals the grouped, count-sorted top 5 of all records of the
window provided the first record of the window owns the column key; when
the first record lacks the key — in particular when the column is absent
from every record of the window — the distribution is empty rather than
an error.  Every grouped name stems from the trimmed stringified value of
a record whose cell is truthy, so empty/falsy values are excluded. -/
theorem c2_distributions (monthData : List Record) (dateCol : String)
    (catCols : List String) (s : MonthStats) (key : String)
    (hs : calculateStatsForMonth monthData dateCol catCols = some s)
    (hk : key ∈ catCols) :
    s.distributions.lookup key =
      some (match monthData.head? with
        | none => []
        | some r0 => if (r0.lookup key).isSome then topCounts monthData key else []) ∧
    ((∀ r ∈ monthData, r.lookup key = none) → s.distributions.lookup key = some []) ∧
    ∀ nc ∈ topCounts monthData key,
      ∃ r ∈ monthData, truthy (getCell r key) = true ∧
        jsTrim (cellToString (getCell r key)) = nc.name := by
  obtain ⟨hsEq, hne⟩ := calcStats_some hs
  subst hsEq
  have hlk := @distributions_lookup monthData dateCol catCols key hk
  refine ⟨?_, ?_, ?_⟩
  · rw [hlk]
    rfl
  · intro hab
    obtain ⟨r0, rs, hm⟩ : ∃ r0 rs, monthData = r0 :: rs := by
      cases monthData with
      | nil => exact absurd rfl hne
      | cons a b => exact ⟨a, b, rfl⟩
    rw [hlk]
    have h0 : r0.lookup key = none := hab r0 (hm ▸ List.mem_cons_self r0 rs)
    rw [hm]
    simp [distFor, h0]
  · intro nc hnc
    rw [topCounts] at hnc
    rcases List.mem_map.mp hnc with ⟨p, hp, hpeq⟩
    have hp' : p ∈ sortBy (fun a b => decide (b.2 ≤ a.2)) (countsFor monthData key) :=
      (List.take_sublist 5 _).mem hp
    have hp'' : p ∈ countsFor monthData key := (mem_sortBy _ p _).mp hp'
    obtain ⟨r, hr, ht, htrim⟩ := mem_countsFor hp''
    refine ⟨r, hr, ht, ?_⟩
    rw [htrim, ← hpeq]

/-- C2 witness: on the scenario window the first record owns `cat`, so
the code distribution is the full-window grouping. -/
theorem c2_witness :
    (⟨3, ⟨"8월 1일", 2⟩, [("cat", [⟨"A", 2⟩, ⟨"B", 1⟩])]⟩ : MonthStats).distributions.lookup
        "cat" = some [⟨"A", 2⟩, ⟨"B", 1⟩] := by
  have h := (c2_distributions (getMonthData scenarioRecords 2025 8 "date") "date" ["cat"]
    ⟨3, ⟨"8월 1일", 2⟩, [("cat", [⟨"A", 2⟩, ⟨"B", 1⟩])]⟩ "cat" (by decide) (by decide)).1
  exact h.trans (by decide)

/-- C7: in comparison mode, each comparison bar chart aligns exactly the
union of the names appearing in the two top-5 distributions of its
column: the row names are a lexicographically sorted duplicate-free
enumeration of exactly that union (names outside both lists never
appear), and each row carries the count looked up in the respective list
with 0 as the default for a name absent from that side.  Every comparison
bar chart emitted by the comparison branch carries rows of exactly this
shape for its column. -/
theorem c7_comparison_union :
    (∀ currentList prevList : List NameCount,
      ((comparisonRows currentList prevList).map (fun r => r.name)).Pairwise
          (fun a b => a < b ∨ a = b) ∧
      ((comparisonRows currentList prevList).map (fun r => r.name)).Nodup ∧
      (∀ n : String,
        n ∈ (comparisonRows currentList prevList).map (fun r => r.name) ↔
          (n ∈ currentList.map (fun i => i.name) ∨ n ∈ prevList.map (fun i => i.name))) ∧
      ∀ row ∈ comparisonRows currentList prevList,
        row.current_count = countOf currentList row.name ∧
        row.prev_count = countOf prevList row.name ∧
        (row.name ∉ currentList.map (fun i => i.name) → row.current_count = 0) ∧
        (row.name ∉ prevList.map (fun i => i.name) → row.prev_count = 0)) ∧
    ∀ (schema : ColumnSchema) (cs ps : MonthStats) (c : InfographicComponent)
      (rows : List CompareRow),
      c ∈ comparisonComponents schema cs ps →
      c.data = ComponentData.compBarData rows →
      ∃ col ∈ schema.categoricalColumns,
        rows = comparisonRows ((cs.distributions.lookup col).getD [])
          ((ps.distributions.lookup col).getD []) := by
  have hmap : ∀ cl pl : List NameCount,
      (comparisonRows cl pl).map (fun r => r.name) =
        sortBy strLeb (dedupFirst (cl.map (fun i => i.name) ++ pl.map (fun i => i.name))) := by
    intro cl pl
    rw [comparisonRows, List.map_map]
    exact List.map_id _
  constructor
  · intro cl pl
    refine ⟨?_, ?_, ?_, ?_⟩
    · rw [hmap]
      exact sortBy_strings_sorted _
    · rw [hmap]
      exact ((sortBy_perm strLeb _).nodup_iff).mpr (nodup_dedupFirst _)
    · intro n
      rw [hmap, mem_sortBy, mem_dedupFirst, List.mem_append]
    · intro row hrow
      rw [comparisonRows] at hrow
      rcases List.mem_map.mp hrow with ⟨n, hn, hneq⟩
      have h1 : row.current_count = countOf cl row.name := by
        rw [← hneq]
      have h2 : row.prev_count = countOf pl row.name := by
        rw [← hneq]
      refine ⟨h1, h2, ?_, ?_⟩
      · intro habs
        rw [h1]
        have hfind : cl.reverse.find? (fun i => i.name == row.name) = none := by
          refine List.find?_eq_none.mpr ?_
          intro x hx hbeq
          exact habs (List.mem_map.mpr ⟨x, List.mem_reverse.mp hx, eq_of_beq hbeq⟩)
        rw [countOf, hfind]
        rfl
      · intro habs
        rw [h2]
        have hfind : pl.reverse.find? (fun i => i.name == row.name) = none := by
          refine List.find?_eq_none.mpr ?_
          intro x hx hbeq
          exact habs (List.mem_map.mpr ⟨x, List.mem_reverse.mp hx, eq_of_beq hbeq⟩)
        rw [countOf, hfind]
        rfl
  · intro schema cs ps c rows hc hdata
    rcases List.mem_cons.mp hc with hkpi | hbar
    · rw [hkpi] at hdata
      simp at hdata
    · rcases List.mem_map.mp hbar with ⟨col, hcol, hceq⟩
      refine ⟨col, hcol, ?_⟩
      rw [← hceq] at hdata
      have h' := (ComponentData.compBarData.injEq _ _).mp hdata
      exact h'.symm

/-- C7 witness: the union rows for current list `[(B, 3)]` and previous
list `[(A, 2)]` contain the name `A`, contributed only by the previous
side. -/
theorem c7_witness :
    "A" ∈ (comparisonRows [⟨"B", 3⟩] [⟨"A", 2⟩]).map (fun r => r.name) :=
  ((c7_comparison_union.1 [⟨"B", 3⟩] [⟨"A", 2⟩]).2.2.1 "A").mpr (Or.inr (by decide))

/-- C1: with nonempty current and previous windows (so the previous total
is positive), the comparison output leads with the comparison KPI whose
values are the two window sizes, classified against the exact rational
change `(current - previous)/previous * 100` with the ±0.1 deadband:
`increase` iff the change exceeds 1/10, `decrease` iff it is below -1/10,
`neutral` otherwise; the displayed percentage is `Math.round` of the
change (of its absolute value for a decrease), the sign being carried
only by the classification tag. -/
theorem c1_change_classification (schema : ColumnSchema) (fullData : List Record)
    (y m : Int) (cur prev : Nat) (change : ℚ)
    (h1 : getMonthData fullData y m schema.dateColumn ≠ [])
    (h2 : getMonthData fullData (prevYearOf y m) (prevMonthOf m) schema.dateColumn ≠ [])
    (hcur : cur = (getMonthData fullData y m schema.dateColumn).length)
    (hprev : prev =
      (getMonthData fullData (prevYearOf y m) (prevMonthOf m) schema.dateColumn).length)
    (hpos : 0 < prev)
    (hch : change = ((cur : ℚ) - (prev : ℚ)) / (prev : ℚ) * 100) :
    (generateComponents schema fullData y m "comparison").head? =
      some ⟨"comparison_kpi", "총 문의 수 비교", "total_count", "hash", "indigo",
        ComponentData.compKpiData cur prev "건" (changeInfo cur prev).1
          (changeInfo cur prev).2⟩ ∧
    ((changeInfo cur prev).2 = ChangeStatus.increase ↔ 1 / 10 < change) ∧
    ((changeInfo cur prev).2 = ChangeStatus.decrease ↔ change < -(1 / 10)) ∧
    ((changeInfo cur prev).2 = ChangeStatus.neutral ↔
      -(1 / 10) ≤ change ∧ change ≤ 1 / 10) ∧
    ((changeInfo cur prev).2 = ChangeStatus.increase →
      (changeInfo cur prev).1 = toString (jsRound change) ++ "% 증가") ∧
    ((changeInfo cur prev).2 = ChangeStatus.decrease →
      (changeInfo cur prev).1 = toString (jsRound |change|) ++ "% 감소") := by
  have hcp : changePercent cur prev = change := by
    rw [hch]
    rfl
  have hinfo : changeInfo cur prev =
      if 1 / 10 < change then
        (toString (jsRound change) ++ "% 증가", ChangeStatus.increase)
      else if change < -(1 / 10) then
        (toString (jsRound |change|) ++ "% 감소", ChangeStatus.decrease)
      else ("변동 없음", ChangeStatus.neutral) := by
    unfold changeInfo
    rw [if_pos hpos, hcp]
  refine ⟨?_, ?_⟩
  · rw [hcur, hprev]
    rw [generateComponents_comparison_eq h1 h2]
    rfl
  · by_cases hinc : 1 / 10 < change
    · rw [hinfo, if_pos hinc]
      refine ⟨?_, ?_, ?_, ?_, ?_⟩
      · exact ⟨fun _ => hinc, fun _ => rfl⟩
      · constructor
        · intro h
          exact ChangeStatus.noConfusion h
        · intro h
          exfalso
          linarith
      · constructor
        · intro h
          exact ChangeStatus.noConfusion h
        · rintro ⟨hh1, hh2⟩
          exfalso
          linarith
      · intro h
        rfl
      · intro h
        exact ChangeStatus.noConfusion h
    · by_cases hdec : change < -(1 / 10)
      · rw [hinfo, if_neg hinc, if_pos hdec]
        refine ⟨?_, ?_, ?_, ?_, ?_⟩
        · constructor
          · intro h
            exact ChangeStatus.noConfusion h
          · intro h
            exact absurd h hinc
        · exact ⟨fun _ => hdec, fun _ => rfl⟩
        · constructor
          · intro h
            exact ChangeStatus.noConfusion h
          · rintro ⟨hh1, hh2⟩
            exfalso
            linarith
        · intro h
          exact ChangeStatus.noConfusion h
        · intro h
          rfl
      · rw [hinfo, if_neg hinc, if_neg hdec]
        refine ⟨?_, ?_, ?_, ?_, ?_⟩
        · constructor
          · intro h
            exact ChangeStatus.noConfusion h
          · intro h
            exact absurd h hinc
        · constructor
          · intro h
            exact ChangeStatus.noConfusion h
          · intro h
            exact absurd h hdec
        · constructor
          · intro h
            exact ⟨not_lt.mp hdec, not_lt.mp hinc⟩
          · intro h
            rfl
        · intro h
          exact ChangeStatus.noConfusion h
        · intro h
          exact ChangeStatus.noConfusion h

set_option maxRecDepth 8000 in
/-- C1 witness: 120 current records against 100 previous records give the
leading comparison KPI `20% 증가` with status `increase`. -/
theorem c1_witness :
    (generateComponents ⟨"date", [], "text"⟩ grownData 2025 8 "comparison").head? =
      some ⟨"comparison_kpi", "총 문의 수 비교", "total_count", "hash", "indigo",
        ComponentData.compKpiData 120 100 "건" "20% 증가" ChangeStatus.increase⟩ := by
  have h := c1_change_classification ⟨"date", [], "text"⟩ grownData 2025 8 120 100 20
    (by decide) (by decide) (by decide) (by decide) (by decide) (by norm_num)
  have hcp : changePercent 120 100 = 20 := by
    unfold changePercent
    norm_num
  have hround : jsRound (20 : ℚ) = 20 := by
    unfold jsRound
    rw [show (20 : ℚ) + 1 / 2 = 41 / 2 by norm_num]
    rw [Int.floor_eq_iff]
    norm_num
  have hstatus : changeInfo 120 100 = ("20% 증가", ChangeStatus.increase) := by
    unfold changeInfo
    rw [if_pos (by norm_num : (0 : Nat) < 100)]
    rw [if_pos (show (1 : ℚ) / 10 < changePercent 120 100 by rw [hcp]; norm_num)]
    rw [hcp, hround]
    decide
  rw [h.1, hstatus]

end Stats
